import Mathlib

/-!
Verification of the SnapMind hybrid retrieval layer and intake server.

The development shallowly embeds:
* the PostgreSQL migration `database_migration_phase2.sql`
  (functions `hybrid_search_documents` and `keyword_search_documents`),
  with scores modelled as rationals, the `english` text-search
  configuration modelled by an ASCII tokenizer with a stopword list, and
  the storage engine's row ordering modelled as a stable descending sort;
* the Express intake server `server.js`
  (`deriveTypeFromUrl` and the `/receive_data` handler), with JavaScript
  string truthiness modelled explicitly and Firestore's `collection.add`
  modelled as appending a fresh-keyed entry.
-/

namespace Snapmind

/-! ## Lexical model: `plainto_tsquery` / `to_tsvector` with the english config -/

/-- A character counts for tokenization when it is an ASCII letter or digit,
matching the word characters the default parser recognises on ASCII input. -/
def isWordChar (c : Char) : Bool := c.isAlpha || c.isDigit

/-- Splits a character stream into maximal lowercased word-character runs.
The accumulator holds the current run, reversed. -/
def tokenizeAux : List Char → List Char → List String
  | [], cur => if cur.isEmpty then [] else [String.mk cur.reverse]
  | c :: rest, cur =>
    if isWordChar c then tokenizeAux rest (c.toLower :: cur)
    else if cur.isEmpty then tokenizeAux rest []
    else String.mk cur.reverse :: tokenizeAux rest []

/-- All lowercased word tokens of a string, in order. -/
def tokenize (s : String) : List String := tokenizeAux s.toList []

/-- Stopwords of the `english` text-search configuration (the part of the
standard list the claims exercise); stopwords produce no lexemes. -/
def stopwords : List String :=
  ["a", "an", "and", "are", "as", "at", "be", "but", "by", "for", "if",
   "in", "into", "is", "it", "no", "not", "of", "on", "or", "such",
   "that", "the", "their", "then", "there", "these", "they", "this",
   "to", "was", "will", "with"]

/-- Lexemes of a string under the `english` configuration: word tokens with
stopwords removed.  `plainto_tsquery` ANDs exactly these lexemes and
`to_tsvector` indexes them. -/
def lexemes (s : String) : List String :=
  (tokenize s).filter (fun w => decide (w ∉ stopwords))

/-- `to_tsvector(content) @@ plainto_tsquery(q)`: every query lexeme occurs in
the document, and the query has at least one lexeme (an empty `tsquery`
matches nothing in PostgreSQL). -/
def tsMatch (q content : String) : Bool :=
  !(lexemes q).isEmpty && (lexemes q).all (fun l => decide (l ∈ (lexemes content)))

/-- `ts_rank` model: total occurrence count of the distinct query lexemes in
the document, damped by document length.  Positive exactly on matching
documents, which is the property the code relies on. -/
def tsRank (q content : String) : ℚ :=
  (((lexemes q).dedup.map (fun l => ((lexemes content).count l : ℚ))).sum) /
    ((lexemes content).length + 1)

/-! ## Rows and candidate records -/

/-- A row of the `documents` table.  The embedding column itself is opaque to
this development; each query carries a similarity valuation (the value of
`1 - (embedding <=> query_embedding)` per row) instead. -/
structure Doc where
  id : Nat
  content : String
  source_url : Option String
deriving DecidableEq, Repr

/-- A candidate row as produced by the `vector_results` / `keyword_results`
CTEs: the row plus its `similarity` and `bm25` columns. -/
structure Cand where
  doc : Doc
  similarity : ℚ
  bm25 : ℚ
deriving DecidableEq, Repr

/-- A row of the `combined` CTE and of the function's result table. -/
structure Fused where
  id : Nat
  content : String
  source_url : Option String
  similarity : ℚ
  bm25_score : ℚ
  combined_score : ℚ
deriving DecidableEq, Repr

/-- The `WHERE (filter_source_url IS NULL OR d.source_url = filter_source_url)`
clause; a SQL `NULL = x` comparison is not true, so a row with no
`source_url` never passes a non-null filter. -/
def filterOk (filter : Option String) (d : Doc) : Bool :=
  match filter with
  | none => true
  | some f => decide (d.source_url = some f)

/-! ## The storage engine's ORDER BY, modelled as a stable descending sort -/

/-- Inserts `x` into a descending-sorted list, after every element whose key
is strictly greater, before the first whose key is not. -/
def insertDesc (key : α → ℚ) (x : α) : List α → List α
  | [] => [x]
  | y :: ys => if key y > key x then y :: insertDesc key x ys else x :: y :: ys

/-- Stable insertion sort, descending by `key`: rows with equal keys keep
their input order. -/
def sortDesc (key : α → ℚ) : List α → List α
  | [] => []
  | x :: xs => insertDesc key x (sortDesc key xs)

/-! ## `hybrid_search_documents` and `keyword_search_documents` -/

/-- The declared default of the `match_threshold` parameter. -/
def defaultMatchThreshold : ℚ := 3 / 10

/-- The declared default of the `vector_weight` parameter. -/
def defaultVectorWeight : ℚ := 7 / 10

/-- The declared default of the `keyword_weight` parameter. -/
def defaultKeywordWeight : ℚ := 3 / 10

/-- The `vector_results` CTE: rows passing the source filter with similarity
strictly above `match_threshold`, ordered by similarity descending
(`ORDER BY embedding <=> query_embedding`), limited to `2 * match_count`;
the `bm25` column is `0::float`. -/
def vectorResults (sim : Doc → ℚ) (match_threshold : ℚ) (match_count : Nat)
    (filter : Option String) (table : List Doc) : List Cand :=
  ((sortDesc sim
      (table.filter (fun d => filterOk filter d && decide (sim d > match_threshold)))).map
    (fun d => Cand.mk d (sim d) 0)).take (match_count * 2)

/-- The `keyword_results` CTE: rows passing the source filter that match the
query under `@@`, ordered by `ts_rank` descending, limited to
`2 * match_count`; the `similarity` column is `0::float`. -/
def keywordResults (query_text : String) (match_count : Nat)
    (filter : Option String) (table : List Doc) : List Cand :=
  ((sortDesc (fun d => tsRank query_text d.content)
      (table.filter (fun d => filterOk filter d && tsMatch query_text d.content))).map
    (fun d => Cand.mk d 0 (tsRank query_text d.content))).take (match_count * 2)

/-- Builds one row of the `combined` CTE from the coalesced column values. -/
def mkFused (d : Doc) (similarity bm25 vector_weight keyword_weight : ℚ) : Fused :=
  Fused.mk d.id d.content d.source_url similarity bm25
    (similarity * vector_weight + bm25 * keyword_weight * 10)

/-- A row of the join coming from the vector side: its `bm25_score` is
coalesced from the keyword row of the same `id`, defaulting to `0`. -/
def joinVector (ks : List Cand) (vector_weight keyword_weight : ℚ)
    (v : Cand) : Fused :=
  match ks.find? (fun k => k.doc.id == v.doc.id) with
  | some k => mkFused v.doc v.similarity k.bm25 vector_weight keyword_weight
  | none => mkFused v.doc v.similarity 0 vector_weight keyword_weight

/-- The `combined` CTE: `vector_results FULL OUTER JOIN keyword_results` on
`id`, with every column coalesced to the side that is present and the
missing score coalesced to `0`; the combined score scales the lexical
score by the fixed factor `10` before weighting. -/
def combinedRows (sim : Doc → ℚ) (query_text : String) (match_threshold : ℚ)
    (match_count : Nat) (filter : Option String)
    (vector_weight keyword_weight : ℚ) (table : List Doc) : List Fused :=
  let vs := vectorResults sim match_threshold match_count filter table
  let ks := keywordResults query_text match_count filter table
  vs.map (joinVector ks vector_weight keyword_weight) ++
  (ks.filter (fun k => vs.all (fun v => !(v.doc.id == k.doc.id)))).map
    (fun k => mkFused k.doc 0 k.bm25 vector_weight keyword_weight)

/-- `hybrid_search_documents`: the combined rows ordered by
`combined_score DESC` and limited to `match_count`. -/
def hybrid_search_documents (sim : Doc → ℚ) (query_text : String)
    (match_threshold : ℚ) (match_count : Nat) (filter : Option String)
    (vector_weight keyword_weight : ℚ) (table : List Doc) : List Fused :=
  (sortDesc Fused.combined_score
    (combinedRows sim query_text match_threshold match_count filter
      vector_weight keyword_weight table)).take match_count

/-- `keyword_search_documents`: rows passing the source filter that match the
query, with their `ts_rank`, ordered by rank descending, limited to
`match_count`. -/
def keyword_search_documents (query_text : String) (match_count : Nat)
    (filter : Option String) (table : List Doc) : List (Doc × ℚ) :=
  ((sortDesc (fun d => tsRank query_text d.content)
      (table.filter (fun d => filterOk filter d && tsMatch query_text d.content))).map
    (fun d => (d, tsRank query_text d.content))).take match_count

/-- Modelled from the spec: the retrieval backend's search entry point.  The
backend layer that invokes the `hybrid_search_documents` RPC per call is not
part of this snapshot; per the spec it accepts per-call weights, validates
both to be non-negative, rejects the call otherwise, and passes accepted
weights through to `hybrid_search_documents`. -/
def searchWithWeights (sim : Doc → ℚ) (query_text : String)
    (match_threshold : ℚ) (match_count : Nat) (filter : Option String)
    (vector_weight keyword_weight : ℚ) (table : List Doc) :
    Except String (List Fused) :=
  if vector_weight < 0 ∨ keyword_weight < 0 then
    .error "weights must be non-negative"
  else
    .ok (hybrid_search_documents sim query_text match_threshold match_count
      filter vector_weight keyword_weight table)

/-! ## `server.js`: JavaScript string helpers -/

/-- Aux for substring matching: does the list start with the pattern? -/
def startsWithL : List Char → List Char → Bool
  | _, [] => true
  | [], _ :: _ => false
  | c :: cs, d :: ds => c == d && startsWithL cs ds

/-- Aux for `String.includes`: does the pattern occur in the list? -/
def containsL : List Char → List Char → Bool
  | [], needle => needle.isEmpty
  | c :: rest, needle => startsWithL (c :: rest) needle || containsL rest needle

/-- JavaScript `s.includes(pat)`. -/
def jsIncludes (s pat : String) : Bool := containsL s.toList pat.toList

/-- JavaScript `s.endsWith(pat)`. -/
def jsEndsWith (s pat : String) : Bool :=
  startsWithL s.toList.reverse pat.toList.reverse

/-- JavaScript `s.toLowerCase()` on the ASCII inputs the server handles. -/
def jsToLower (s : String) : String := String.mk (s.toList.map Char.toLower)

/-- JavaScript truthiness of a possibly-absent string: `undefined`, `null`
and the empty string are falsy. -/
def jsTruthy : Option String → Bool
  | none => false
  | some s => !(s == "")

/-- JavaScript `a || b` on possibly-absent strings. -/
def jsOr (a b : Option String) : Option String :=
  if jsTruthy a then a else b

/-- Template-literal interpolation of a possibly-absent string: JavaScript
renders `undefined` as the text "undefined". -/
def jsInterp : Option String → String
  | none => "undefined"
  | some s => s

/-! ## `server.js`: `deriveTypeFromUrl` -/

/-- `deriveTypeFromUrl(url)`: a falsy url gives `text`; otherwise the
lowercased url is checked against platform substrings in order, then the
`.pdf` suffix, and anything else is an `article`. -/
def deriveTypeFromUrl (url : Option String) : String :=
  if !(jsTruthy url) then "text"
  else
    let u := jsToLower (jsInterp url)
    if jsIncludes u "youtube.com" || jsIncludes u "youtu.be" then "youtube"
    else if jsIncludes u "linkedin.com" then "linkedin"
    else if jsIncludes u "x.com" || jsIncludes u "twitter.com" then "twitter"
    else if jsIncludes u "reddit.com" then "reddit"
    else if jsIncludes u "quora.com" then "quora"
    else if jsIncludes u "instagram.com" then "instagram"
    else if jsIncludes u "github.com" then "github"
    else if jsEndsWith u ".pdf" then "pdf"
    else "article"

/-! ## `server.js`: the `/receive_data` handler -/

/-- The platform substrings `deriveTypeFromUrl` checks, in source order. -/
def platformSubstrings : List String :=
  ["youtube.com", "youtu.be", "linkedin.com", "x.com", "twitter.com",
   "reddit.com", "quora.com", "instagram.com", "github.com"]

/-- The JSON body of a `/receive_data` request: `url`, `text`, `title`. -/
structure ReqBody where
  url : Option String
  text : Option String
  title : Option String
deriving DecidableEq, Repr

/-- A successful Firecrawl scrape: markdown plus opaque metadata. -/
structure ScrapeResult where
  markdown : String
  metadata : String
deriving DecidableEq, Repr

/-- The parsed Mistral analysis JSON: the `title` key plus the remaining
keys (summary, keywords, emotions, timestamp, source url), opaque here. -/
structure Analysis where
  title : Option String
  payload : String
deriving DecidableEq, Repr

/-- The `finalMemory` object the handler builds and stores. -/
structure Memory where
  payload : String
  title : String
  url : Option String
  original_url : Option String
  firecrawl_metadata : String
  full_content : String
  created_at : String
  type : String
  favorite : Bool
deriving DecidableEq, Repr

/-- The Firestore `memories` collection: auto-generated ids paired with the
stored objects. -/
abbrev Store := List (Nat × Memory)

/-- Firestore `collection.add`: always appends a new document under a fresh
auto-generated id. -/
def addDoc (st : Store) (m : Memory) : Store := st ++ [(st.length, m)]

/-- Stored entries whose `url` equals the given address. -/
def countFor (addr : String) (st : Store) : Nat :=
  (st.filter (fun p => decide (p.2.url = some addr))).length

/-- The HTTP responses the handler can produce. -/
inductive Response where
  | badRequest (msg : String)
  | serverError (msg : String)
  | okSaved (id : Nat) (m : Memory)
  | okUnsaved (m : Memory)
deriving DecidableEq, Repr

/-- Is the response the 400 validation error? -/
def Response.isBadRequest : Response → Bool
  | .badRequest _ => true
  | _ => false

/-- The `finalUrl` binding: `url || null`. -/
def finalUrlOf (body : ReqBody) : Option String := jsOr body.url none

/-- The `isLocal` binding: the url is truthy and points at localhost. -/
def isLocalOf (body : ReqBody) : Bool :=
  jsTruthy body.url &&
    (jsIncludes (jsInterp body.url) "localhost" ||
     jsIncludes (jsInterp body.url) "127.0.0.1")

/-- The `contentToAnalyze` computation: scrape a non-local url (falling back
to the provided text on scrape failure, or rethrowing), otherwise assemble
the provided title and text. -/
def contentOf (scrape : String → Except String ScrapeResult)
    (body : ReqBody) : Except String String :=
  if jsTruthy body.url && !(isLocalOf body) then
    match scrape (jsInterp body.url) with
    | .ok r =>
      .ok (if jsTruthy body.title || jsTruthy body.text then
        "User Note/Title: " ++ jsInterp body.title ++ " " ++
          jsInterp body.text ++ "\n\nScraped Content:\n" ++ r.markdown
      else r.markdown)
    | .error e =>
      if jsTruthy body.text then
        .ok ("(Scrape Failed for " ++ jsInterp body.url ++ ") User Note: " ++
          jsInterp body.title ++ "\n\n" ++ jsInterp body.text)
      else .error e
  else
    .ok ("Title: " ++ jsInterp (jsOr body.title (some "No Title")) ++
      "\nContent: " ++ jsInterp (jsOr body.text (some "")) ++
      (if !(jsTruthy body.text) && isLocalOf body then
        "\n(No text content provided for local URL)" else ""))

/-- The `finalMemory` object: AI title first, then user title, then the
fixed fallback; derived type; cleared raw fields. -/
def memoryOf (a : Analysis) (body : ReqBody) (now : String) : Memory :=
  { payload := a.payload
    title := jsInterp (jsOr a.title (jsOr body.title (some "Untitled Memory")))
    url := finalUrlOf body
    original_url := finalUrlOf body
    firecrawl_metadata := ""
    full_content := ""
    created_at := now
    type := jsInterp (jsOr (some (deriveTypeFromUrl (finalUrlOf body))) (some "note"))
    favorite := false }

/-- The `/receive_data` handler.  `scrape` and `analyze` stand for the
Firecrawl and Mistral services (exceptions as `Except.error`); `now` is the
ISO timestamp; `hasDb` is whether Firestore was initialised.  Returns the
resulting collection state and the HTTP response. -/
def receive_data (scrape : String → Except String ScrapeResult)
    (analyze : String → Except String Analysis) (now : String) (hasDb : Bool)
    (st : Store) (body : ReqBody) : Store × Response :=
  if !(jsTruthy body.url) && !(jsTruthy body.text) then
    (st, .badRequest "Either URL or text content is required")
  else
    match contentOf scrape body with
    | .error e => (st, .serverError e)
    | .ok content =>
      match analyze (if content == "" then "No content found" else content) with
      | .error e => (st, .serverError e)
      | .ok a =>
        if hasDb then
          (addDoc st (memoryOf a body now), .okSaved st.length (memoryOf a body now))
        else (st, .okUnsaved (memoryOf a body now))

/-! ## Lemmas about the stable descending sort -/

theorem mem_insertDesc (key : α → ℚ) (x : α) (l : List α) (z : α) :
    z ∈ insertDesc key x l ↔ z = x ∨ z ∈ l := by
  induction l with
  | nil => simp [insertDesc]
  | cons y ys ih =>
    simp only [insertDesc]
    split
    · simp only [List.mem_cons, ih]
      tauto
    · simp only [List.mem_cons]

theorem insertDesc_perm (key : α → ℚ) (x : α) (l : List α) :
    (insertDesc key x l).Perm (x :: l) := by
  induction l with
  | nil => exact List.Perm.refl _
  | cons y ys ih =>
    simp only [insertDesc]
    split
    · exact (ih.cons y).trans (List.Perm.swap x y ys)
    · exact List.Perm.refl _

theorem sortDesc_perm (key : α → ℚ) (l : List α) : (sortDesc key l).Perm l := by
  induction l with
  | nil => exact List.Perm.refl _
  | cons x xs ih => exact (insertDesc_perm key x (sortDesc key xs)).trans (ih.cons x)

theorem mem_sortDesc (key : α → ℚ) (l : List α) (z : α) :
    z ∈ sortDesc key l ↔ z ∈ l := (sortDesc_perm key l).mem_iff

theorem pairwise_insertDesc (key : α → ℚ) (x : α) (l : List α)
    (h : l.Pairwise (fun a b => key b ≤ key a)) :
    (insertDesc key x l).Pairwise (fun a b => key b ≤ key a) := by
  induction l with
  | nil => simp [insertDesc]
  | cons y ys ih =>
    rw [List.pairwise_cons] at h
    obtain ⟨hy, hys⟩ := h
    simp only [insertDesc]
    split
    · rename_i hgt
      rw [List.pairwise_cons]
      refine ⟨fun z hz => ?_, ih hys⟩
      rcases (mem_insertDesc key x ys z).1 hz with rfl | hz
      · exact le_of_lt hgt
      · exact hy z hz
    · rename_i hle
      push_neg at hle
      rw [List.pairwise_cons]
      refine ⟨fun z hz => ?_, List.pairwise_cons.2 ⟨hy, hys⟩⟩
      rcases List.mem_cons.1 hz with rfl | hz
      · exact hle
      · exact (hy z hz).trans hle

theorem sortDesc_pairwise (key : α → ℚ) (l : List α) :
    (sortDesc key l).Pairwise (fun a b => key b ≤ key a) := by
  induction l with
  | nil => simp [sortDesc]
  | cons x xs ih => exact pairwise_insertDesc key x _ ih

theorem filter_insertDesc (key : α → ℚ) (x : α) (l : List α) (c : ℚ) :
    (insertDesc key x l).filter (fun a => decide (key a = c)) =
      (x :: l).filter (fun a => decide (key a = c)) := by
  induction l with
  | nil => rfl
  | cons y ys ih =>
    simp only [insertDesc]
    split
    · rename_i hgt
      have hno : ¬(key y = c ∧ key x = c) := by
        rintro ⟨h1, h2⟩
        rw [h1, h2] at hgt
        exact lt_irrefl c hgt
      simp only [List.filter_cons, ih]
      by_cases h1 : key y = c <;> by_cases h2 : key x = c
      · exact absurd ⟨h1, h2⟩ hno
      · simp [h1, h2]
      · simp [h1, h2]
      · simp [h1, h2]
    · rfl

theorem filter_sortDesc (key : α → ℚ) (l : List α) (c : ℚ) :
    (sortDesc key l).filter (fun a => decide (key a = c)) =
      l.filter (fun a => decide (key a = c)) := by
  induction l with
  | nil => rfl
  | cons x xs ih =>
    simp only [sortDesc]
    rw [filter_insertDesc]
    simp only [List.filter_cons]
    rw [ih]

/-! ## Lemmas about the candidate sets and the fusion step -/

theorem tsRank_pos {q content : String} (h : tsMatch q content = true) :
    0 < tsRank q content := by
  unfold tsMatch at h
  simp only [Bool.and_eq_true, Bool.not_eq_true', List.all_eq_true,
    decide_eq_true_eq] at h
  obtain ⟨hne, hall⟩ := h
  have hq : lexemes q ≠ [] := by
    intro hnil
    rw [hnil] at hne
    simp at hne
  unfold tsRank
  apply div_pos
  · apply List.sum_pos
    · intro x hx
      obtain ⟨l, hl, rfl⟩ := List.mem_map.1 hx
      have hmem : l ∈ lexemes content := hall l (List.mem_dedup.1 hl)
      have hcount : 0 < (lexemes content).count l := List.count_pos_iff.2 hmem
      exact_mod_cast hcount
    · simp only [ne_eq, List.map_eq_nil_iff]
      rw [List.dedup_eq_nil]
      exact hq
  · positivity

theorem mem_vectorResults {sim : Doc → ℚ} {thr : ℚ} {k : Nat}
    {f : Option String} {t : List Doc} {c : Cand}
    (hc : c ∈ vectorResults sim thr k f t) :
    c.doc ∈ t ∧ c.similarity = sim c.doc ∧ c.bm25 = 0 ∧ thr < sim c.doc ∧
      filterOk f c.doc = true := by
  unfold vectorResults at hc
  obtain ⟨d, hd, rfl⟩ := List.mem_map.1 (List.mem_of_mem_take hc)
  obtain ⟨hmem, hprop⟩ := List.mem_filter.1 ((mem_sortDesc _ _ _).1 hd)
  simp only [Bool.and_eq_true, decide_eq_true_eq] at hprop
  exact ⟨hmem, rfl, rfl, hprop.2, hprop.1⟩

theorem mem_keywordResults {q : String} {k : Nat} {f : Option String}
    {t : List Doc} {c : Cand} (hc : c ∈ keywordResults q k f t) :
    c.doc ∈ t ∧ c.similarity = 0 ∧ c.bm25 = tsRank q c.doc.content ∧
      tsMatch q c.doc.content = true ∧ filterOk f c.doc = true := by
  unfold keywordResults at hc
  obtain ⟨d, hd, rfl⟩ := List.mem_map.1 (List.mem_of_mem_take hc)
  obtain ⟨hmem, hprop⟩ := List.mem_filter.1 ((mem_sortDesc _ _ _).1 hd)
  simp only [Bool.and_eq_true] at hprop
  exact ⟨hmem, rfl, rfl, hprop.2, hprop.1⟩

theorem joinVector_id (ks : List Cand) (vw kw : ℚ) (v : Cand) :
    (joinVector ks vw kw v).id = v.doc.id := by
  unfold joinVector
  split <;> simp [mkFused]

theorem joinVector_similarity (ks : List Cand) (vw kw : ℚ) (v : Cand) :
    (joinVector ks vw kw v).similarity = v.similarity := by
  unfold joinVector
  split <;> simp [mkFused]

theorem joinVector_score (ks : List Cand) (vw kw : ℚ) (v : Cand) :
    (joinVector ks vw kw v).combined_score =
      (joinVector ks vw kw v).similarity * vw +
        (joinVector ks vw kw v).bm25_score * kw * 10 := by
  unfold joinVector
  split <;> simp [mkFused]

theorem joinVector_bm25_none {ks : List Cand} {v : Cand} (vw kw : ℚ)
    (h : ks.find? (fun k => k.doc.id == v.doc.id) = none) :
    (joinVector ks vw kw v).bm25_score = 0 := by
  unfold joinVector
  rw [h]
  rfl

theorem joinVector_bm25_some {ks : List Cand} {v kk : Cand} (vw kw : ℚ)
    (h : ks.find? (fun k => k.doc.id == v.doc.id) = some kk) :
    (joinVector ks vw kw v).bm25_score = kk.bm25 := by
  unfold joinVector
  rw [h]
  rfl

/-- The block identifiers of the `combined` CTE are exactly the union of the
identifiers of the two candidate sets. -/
theorem combinedRows_ids (sim : Doc → ℚ) (q : String) (thr : ℚ) (k : Nat)
    (f : Option String) (vw kw : ℚ) (t : List Doc) (i : Nat) :
    i ∈ (combinedRows sim q thr k f vw kw t).map Fused.id ↔
      i ∈ (vectorResults sim thr k f t).map (fun c => c.doc.id) ∨
        i ∈ (keywordResults q k f t).map (fun c => c.doc.id) := by
  unfold combinedRows
  simp only [List.map_append, List.mem_append, List.map_map, List.mem_map,
    Function.comp]
  constructor
  · rintro (⟨v, hv, hid⟩ | ⟨kk, hkk, hid⟩)
    · rw [joinVector_id] at hid
      exact Or.inl ⟨v, hv, hid⟩
    · obtain ⟨hkmem, _⟩ := List.mem_filter.1 hkk
      simp only [mkFused] at hid
      exact Or.inr ⟨kk, hkmem, hid⟩
  · rintro (⟨v, hv, hid⟩ | ⟨kk, hkk, hid⟩)
    · exact Or.inl ⟨v, hv, by rw [joinVector_id]; exact hid⟩
    · by_cases hvs : ∃ v ∈ vectorResults sim thr k f t, v.doc.id = i
      · obtain ⟨v, hv, hvid⟩ := hvs
        exact Or.inl ⟨v, hv, by rw [joinVector_id]; exact hvid⟩
      · push_neg at hvs
        refine Or.inr ⟨kk, List.mem_filter.2 ⟨hkk, ?_⟩, by simp [mkFused]; exact hid⟩
        simp only [List.all_eq_true, Bool.not_eq_true', beq_eq_false_iff_ne, ne_eq]
        intro v hv
        rw [hid]
        exact hvs v hv

/-- Every row of the `combined` CTE is either the join row of a vector
candidate, or the row of a keyword candidate whose id no vector candidate
carries. -/
theorem mem_combinedRows_cases {sim : Doc → ℚ} {q : String} {thr : ℚ}
    {k : Nat} {f : Option String} {vw kw : ℚ} {t : List Doc} {r : Fused}
    (hr : r ∈ combinedRows sim q thr k f vw kw t) :
    (∃ v ∈ vectorResults sim thr k f t,
        r = joinVector (keywordResults q k f t) vw kw v) ∨
    (∃ kk ∈ keywordResults q k f t,
        (∀ v ∈ vectorResults sim thr k f t, v.doc.id ≠ kk.doc.id) ∧
        r = mkFused kk.doc 0 kk.bm25 vw kw) := by
  unfold combinedRows at hr
  rcases List.mem_append.1 hr with h | h
  · obtain ⟨v, hv, hveq⟩ := List.mem_map.1 h
    exact Or.inl ⟨v, hv, hveq.symm⟩
  · obtain ⟨kk, hkk, hkeq⟩ := List.mem_map.1 h
    obtain ⟨hkmem, hall⟩ := List.mem_filter.1 hkk
    refine Or.inr ⟨kk, hkmem, ?_, hkeq.symm⟩
    intro v hv
    have := List.all_eq_true.1 hall v hv
    simpa using this

/-- The join row of every vector candidate is in the `combined` CTE. -/
theorem joinVector_mem_combinedRows {sim : Doc → ℚ} {q : String} {thr : ℚ}
    {k : Nat} {f : Option String} (vw kw : ℚ) {t : List Doc} {v : Cand}
    (hv : v ∈ vectorResults sim thr k f t) :
    joinVector (keywordResults q k f t) vw kw v ∈
      combinedRows sim q thr k f vw kw t := by
  unfold combinedRows
  exact List.mem_append_left _ (List.mem_map_of_mem _ hv)

/-- The row of a keyword candidate whose id no vector candidate carries is in
the `combined` CTE. -/
theorem keywordRow_mem_combinedRows {sim : Doc → ℚ} {q : String} {thr : ℚ}
    {k : Nat} {f : Option String} (vw kw : ℚ) {t : List Doc} {kk : Cand}
    (hkk : kk ∈ keywordResults q k f t)
    (hall : ∀ v ∈ vectorResults sim thr k f t, v.doc.id ≠ kk.doc.id) :
    mkFused kk.doc 0 kk.bm25 vw kw ∈ combinedRows sim q thr k f vw kw t := by
  unfold combinedRows
  refine List.mem_append_right _ (List.mem_map_of_mem _ (List.mem_filter.2 ⟨hkk, ?_⟩))
  simp only [List.all_eq_true, Bool.not_eq_true', beq_eq_false_iff_ne, ne_eq]
  exact hall

/-! ## Claim theorems -/

/-- C1: hybrid search fuses the union of the vector and lexical candidate
sets keyed by block identifier; each fused row's combined score equals
`vector_score * vector_weight + (lexical_score * 10) * keyword_weight`; an
id present in both candidate sets has both component scores non-zero (for
a non-negative similarity threshold); an id present in only one set takes
exactly `0` for the missing component and is not excluded. -/
theorem c1_hybrid_fusion (sim : Doc → ℚ) (q : String) (thr : ℚ) (k : Nat)
    (f : Option String) (vw kw : ℚ) (t : List Doc) (hthr : 0 ≤ thr) :
    (∀ i : Nat,
        i ∈ (combinedRows sim q thr k f vw kw t).map Fused.id ↔
          i ∈ (vectorResults sim thr k f t).map (fun c => c.doc.id) ∨
            i ∈ (keywordResults q k f t).map (fun c => c.doc.id)) ∧
    (∀ r ∈ combinedRows sim q thr k f vw kw t,
        r.combined_score = r.similarity * vw + (r.bm25_score * 10) * kw) ∧
    (∀ r ∈ combinedRows sim q thr k f vw kw t,
        r.id ∈ (vectorResults sim thr k f t).map (fun c => c.doc.id) →
        r.id ∈ (keywordResults q k f t).map (fun c => c.doc.id) →
        r.similarity ≠ 0 ∧ r.bm25_score ≠ 0) ∧
    (∀ i : Nat,
        i ∈ (vectorResults sim thr k f t).map (fun c => c.doc.id) →
        i ∉ (keywordResults q k f t).map (fun c => c.doc.id) →
        (∃ r ∈ combinedRows sim q thr k f vw kw t, r.id = i) ∧
          ∀ r ∈ combinedRows sim q thr k f vw kw t, r.id = i →
            r.bm25_score = 0) ∧
    (∀ i : Nat,
        i ∉ (vectorResults sim thr k f t).map (fun c => c.doc.id) →
        i ∈ (keywordResults q k f t).map (fun c => c.doc.id) →
        (∃ r ∈ combinedRows sim q thr k f vw kw t, r.id = i) ∧
          ∀ r ∈ combinedRows sim q thr k f vw kw t, r.id = i →
            r.similarity = 0) := by
  refine ⟨combinedRows_ids sim q thr k f vw kw t, ?_, ?_, ?_, ?_⟩
  · intro r hr
    rcases mem_combinedRows_cases hr with ⟨v, hv, rfl⟩ | ⟨kk, hkk, hall, rfl⟩
    · rw [joinVector_score]
      ring
    · simp only [mkFused]
      ring
  · intro r hr hidv hidk
    rcases mem_combinedRows_cases hr with ⟨v, hv, rfl⟩ | ⟨kk, hkk, hall, rfl⟩
    · constructor
      · rw [joinVector_similarity]
        have hm := mem_vectorResults hv
        rw [hm.2.1]
        exact ne_of_gt (lt_of_le_of_lt hthr hm.2.2.2.1)
      · rw [joinVector_id] at hidk
        obtain ⟨kk, hkk, hkid⟩ := List.mem_map.1 hidk
        cases hfind : (keywordResults q k f t).find?
            (fun c => c.doc.id == v.doc.id) with
        | none =>
          exfalso
          have := List.find?_eq_none.1 hfind kk hkk
          simp only [beq_iff_eq] at this
          exact this hkid
        | some kk2 =>
          rw [joinVector_bm25_some vw kw hfind]
          have hm2 := mem_keywordResults (List.mem_of_find?_eq_some hfind)
          rw [hm2.2.2.1]
          exact ne_of_gt (tsRank_pos hm2.2.2.2.1)
    · exfalso
      simp only [mkFused] at hidv
      obtain ⟨v, hv, hvid⟩ := List.mem_map.1 hidv
      exact hall v hv hvid
  · intro i hidv hidk
    obtain ⟨v, hv, hvid⟩ := List.mem_map.1 hidv
    constructor
    · exact ⟨joinVector (keywordResults q k f t) vw kw v,
        joinVector_mem_combinedRows vw kw hv, by rw [joinVector_id]; exact hvid⟩
    · intro r hr hrid
      rcases mem_combinedRows_cases hr with ⟨v2, hv2, rfl⟩ | ⟨kk, hkk, hall, rfl⟩
      · cases hfind : (keywordResults q k f t).find?
            (fun c => c.doc.id == v2.doc.id) with
        | none => exact joinVector_bm25_none vw kw hfind
        | some kk2 =>
          exfalso
          apply hidk
          have hkmem := List.mem_of_find?_eq_some hfind
          have hkid := List.find?_some hfind
          simp only [beq_iff_eq] at hkid
          refine List.mem_map.2 ⟨kk2, hkmem, ?_⟩
          rw [hkid, ← joinVector_id (keywordResults q k f t) vw kw v2]
          exact hrid
      · exfalso
        apply hidk
        simp only [mkFused] at hrid
        exact List.mem_map.2 ⟨kk, hkk, hrid⟩
  · intro i hidv hidk
    obtain ⟨kk, hkk, hkid⟩ := List.mem_map.1 hidk
    have hall : ∀ v ∈ vectorResults sim thr k f t, v.doc.id ≠ kk.doc.id := by
      intro v hv heq
      exact hidv (List.mem_map.2 ⟨v, hv, by rw [heq, hkid]⟩)
    constructor
    · exact ⟨mkFused kk.doc 0 kk.bm25 vw kw,
        keywordRow_mem_combinedRows vw kw hkk hall, by simp [mkFused]; exact hkid⟩
    · intro r hr hrid
      rcases mem_combinedRows_cases hr with ⟨v2, hv2, rfl⟩ | ⟨kk2, hkk2, hall2, rfl⟩
      · exfalso
        apply hidv
        rw [joinVector_id] at hrid
        exact List.mem_map.2 ⟨v2, hv2, hrid⟩
      · simp [mkFused]

/-- C1 witness: at a concrete table and query, block id 1 is a lexical-only
candidate and is still present in the fused set with vector component 0. -/
theorem c1_hybrid_fusion_witness :
    (0 : ℚ) ≤ 3 / 10 ∧
    ((∃ r ∈ combinedRows (fun d => if d.id == 2 then 9 / 10 else 0) "cat"
          (3 / 10) 2 none (7 / 10) (3 / 10)
          [⟨1, "cat cat", none⟩, ⟨2, "dog", none⟩], r.id = 1) ∧
      ∀ r ∈ combinedRows (fun d => if d.id == 2 then 9 / 10 else 0) "cat"
          (3 / 10) 2 none (7 / 10) (3 / 10)
          [⟨1, "cat cat", none⟩, ⟨2, "dog", none⟩], r.id = 1 →
        r.similarity = 0) := by
  have hv : (1 : ℕ) ∉ (vectorResults (fun d => if d.id == 2 then 9 / 10 else 0)
      (3 / 10) 2 none [⟨1, "cat cat", none⟩, ⟨2, "dog", none⟩]).map
        (fun c => c.doc.id) := by
    norm_num [vectorResults, filterOk, sortDesc, insertDesc, List.filter]
  have hk : (1 : ℕ) ∈ (keywordResults "cat" 2 none
      [⟨1, "cat cat", none⟩, ⟨2, "dog", none⟩]).map (fun c => c.doc.id) := by
    have ht1 : tsMatch "cat" "cat cat" = true := by decide
    have ht2 : tsMatch "cat" "dog" = false := by decide
    simp [keywordResults, filterOk, sortDesc, insertDesc, List.filter, ht1, ht2]
  exact ⟨by norm_num,
    (c1_hybrid_fusion (fun d => if d.id == 2 then 9 / 10 else 0) "cat" (3 / 10)
        2 none (7 / 10) (3 / 10) [⟨1, "cat cat", none⟩, ⟨2, "dog", none⟩]
        (by norm_num)).2.2.2.2 1 hv hk⟩

/-- C2: for every query, hybrid search returns at most `match_count` rows,
sorted by non-increasing combined score. -/
theorem c2_topk_sorted (sim : Doc → ℚ) (q : String) (thr : ℚ) (k : Nat)
    (f : Option String) (vw kw : ℚ) (t : List Doc) :
    (hybrid_search_documents sim q thr k f vw kw t).length ≤ k ∧
      (hybrid_search_documents sim q thr k f vw kw t).Pairwise
        (fun a b => b.combined_score ≤ a.combined_score) := by
  constructor
  · unfold hybrid_search_documents
    exact List.length_take_le _ _
  · unfold hybrid_search_documents
    exact (sortDesc_pairwise Fused.combined_score _).sublist (List.take_sublist _ _)

/-- C5: the vector candidate lookup returns at most `2 * match_count`
candidates, each with similarity strictly above the threshold (whose
declared default is 0.3) and matching the source filter when given. -/
theorem c5_vector_candidates (sim : Doc → ℚ) (thr : ℚ) (k : Nat)
    (f : Option String) (t : List Doc) :
    (vectorResults sim thr k f t).length ≤ 2 * k ∧
      (∀ c ∈ vectorResults sim thr k f t,
        thr < sim c.doc ∧ c.similarity = sim c.doc ∧ thr < c.similarity) ∧
      (∀ c ∈ vectorResults sim thr k f t, ∀ u : String,
        f = some u → c.doc.source_url = some u) ∧
      defaultMatchThreshold = 3 / 10 := by
  refine ⟨?_, fun c hc => ?_, fun c hc u hu => ?_, rfl⟩
  · unfold vectorResults
    rw [Nat.mul_comm]
    exact List.length_take_le _ _
  · have h := mem_vectorResults hc
    exact ⟨h.2.2.2.1, h.2.1, by rw [h.2.1]; exact h.2.2.2.1⟩
  · have h := (mem_vectorResults hc).2.2.2.2
    rw [hu] at h
    simp only [filterOk, decide_eq_true_eq] at h
    exact h

/-- C5 witness: at a concrete valuation the bound holds and the sole
candidate, which is above the threshold, matches the source filter. -/
theorem c5_vector_candidates_witness :
    (vectorResults (fun d => if d.id == 2 then 9 / 10 else 0) (3 / 10) 1
        (some "u") [⟨1, "a", some "u"⟩, ⟨2, "b", some "u"⟩]).length ≤ 2 * 1 ∧
    Doc.source_url ⟨2, "b", some "u"⟩ = some "u" := by
  have hm : (⟨⟨2, "b", some "u"⟩, 9 / 10, 0⟩ : Cand) ∈
      vectorResults (fun d => if d.id == 2 then 9 / 10 else 0) (3 / 10) 1
        (some "u") [⟨1, "a", some "u"⟩, ⟨2, "b", some "u"⟩] := by
    norm_num [vectorResults, filterOk, sortDesc, insertDesc, List.filter]
  exact ⟨(c5_vector_candidates (fun d => if d.id == 2 then 9 / 10 else 0)
      (3 / 10) 1 (some "u") [⟨1, "a", some "u"⟩, ⟨2, "b", some "u"⟩]).1,
    (c5_vector_candidates (fun d => if d.id == 2 then 9 / 10 else 0) (3 / 10) 1
        (some "u") [⟨1, "a", some "u"⟩, ⟨2, "b", some "u"⟩]).2.2.1
      ⟨⟨2, "b", some "u"⟩, 9 / 10, 0⟩ hm "u" rfl⟩

/-- C6: a query that is empty or trivial after normalization (no lexemes)
yields zero lexical candidates, both in the hybrid keyword CTE and in the
keyword-only search function. -/
theorem c6_trivial_query (q : String) (k : Nat) (f : Option String)
    (t : List Doc) (h : lexemes q = []) :
    keywordResults q k f t = [] ∧ keyword_search_documents q k f t = [] := by
  have hm : ∀ d : Doc, tsMatch q d.content = false := by
    intro d
    unfold tsMatch
    rw [h]
    rfl
  have hf : t.filter (fun d => filterOk f d && tsMatch q d.content) = [] := by
    rw [List.filter_eq_nil_iff]
    intro d _
    simp [hm d]
  constructor
  · unfold keywordResults
    rw [hf]
    simp [sortDesc]
  · unfold keyword_search_documents
    rw [hf]
    simp [sortDesc]

/-- C6 witness: a query of pure stopwords normalizes to no lexemes and
returns no lexical candidates. -/
theorem c6_trivial_query_witness :
    lexemes "the of and to" = [] ∧
      keyword_search_documents "the of and to" 5 none
        [⟨1, "the cat", none⟩] = [] :=
  ⟨by decide,
    (c6_trivial_query "the of and to" 5 none [⟨1, "the cat", none⟩]
      (by decide)).2⟩

/-- C7: weights are per-call parameters whose declared defaults are 0.7 and
0.3; the (spec-modelled) backend entry point rejects a call with a negative
weight and otherwise executes `hybrid_search_documents` with the given
weights. -/
theorem c7_weight_validation (sim : Doc → ℚ) (q : String) (thr : ℚ) (k : Nat)
    (f : Option String) (vw kw : ℚ) (t : List Doc) :
    (vw < 0 ∨ kw < 0 →
      searchWithWeights sim q thr k f vw kw t =
        .error "weights must be non-negative") ∧
    (0 ≤ vw → 0 ≤ kw →
      searchWithWeights sim q thr k f vw kw t =
        .ok (hybrid_search_documents sim q thr k f vw kw t)) ∧
    defaultVectorWeight = 7 / 10 ∧ defaultKeywordWeight = 3 / 10 := by
  refine ⟨fun h => ?_, fun h1 h2 => ?_, rfl, rfl⟩
  · unfold searchWithWeights
    rw [if_pos h]
  · unfold searchWithWeights
    rw [if_neg]
    push_neg
    exact ⟨h1, h2⟩

/-- C7 witness: a concrete call with a negative vector weight is rejected. -/
theorem c7_weight_validation_witness :
    searchWithWeights (fun _ => 0) "x" (3 / 10) 5 none (-1) (3 / 10) [] =
      Except.error "weights must be non-negative" :=
  (c7_weight_validation (fun _ => 0) "x" (3 / 10) 5 none (-1) (3 / 10) []).1
    (Or.inl (by norm_num))

/-- C3 counterexample: with one lexical-only match and one strong vector
match, `match_count = 1`, and weights held constant, the degraded
keyword-only search returns block id 1 but the subsequent hybrid search
returns only block id 2 — the hybrid result set is not a superset. -/
theorem c3_superset_counterexample :
    1 ∈ (keyword_search_documents "cat" 1 none
        [⟨1, "cat", none⟩, ⟨2, "zzz", none⟩]).map (fun p => p.1.id) ∧
    1 ∉ (hybrid_search_documents (fun d => if d.id == 2 then 9 / 10 else 0)
        "cat" (3 / 10) 1 none (7 / 10) (1 / 100)
        [⟨1, "cat", none⟩, ⟨2, "zzz", none⟩]).map Fused.id := by
  have ht1 : tsMatch "cat" "cat" = true := by decide
  have ht2 : tsMatch "cat" "zzz" = false := by decide
  have hr1 : tsRank "cat" "cat" = 1 / 2 := by
    unfold tsRank
    have hl : lexemes "cat" = ["cat"] := by decide
    rw [hl]
    norm_num
  constructor
  · simp [keyword_search_documents, filterOk, ht1, ht2, sortDesc, insertDesc,
      List.filter]
  · simp only [hybrid_search_documents, combinedRows, vectorResults,
      keywordResults, filterOk, ht1, ht2, List.filter, sortDesc, insertDesc,
      mkFused, joinVector, List.find?, List.all, List.map, List.take, hr1]
    norm_num [hr1, mkFused, sortDesc, insertDesc, joinVector]

/-- C3 amended: every block identifier returned by the degraded
keyword-only search is present in the hybrid search's fused candidate set
(the `combined` CTE) for the same query, filter and weights — vector
results never remove lexical candidates from the fused pool; only the
final truncation to `match_count` can drop them. -/
theorem c3_lexical_in_fused_pool (sim : Doc → ℚ) (q : String) (thr : ℚ)
    (k : Nat) (f : Option String) (vw kw : ℚ) (t : List Doc) :
    ∀ i ∈ (keyword_search_documents q k f t).map (fun p => p.1.id),
      i ∈ (combinedRows sim q thr k f vw kw t).map Fused.id := by
  intro i hi
  obtain ⟨p, hp, hpid⟩ := List.mem_map.1 hi
  unfold keyword_search_documents at hp
  rw [← List.map_take] at hp
  obtain ⟨d, hd, hdp⟩ := List.mem_map.1 hp
  have hk2 : k ≤ k * 2 := by omega
  have hd2 : d ∈ (sortDesc (fun d => tsRank q d.content)
      (t.filter (fun d => filterOk f d && tsMatch q d.content))).take (k * 2) := by
    have := List.take_take k (k * 2)
      (sortDesc (fun d => tsRank q d.content)
        (t.filter (fun d => filterOk f d && tsMatch q d.content)))
    rw [min_eq_left hk2] at this
    rw [← this] at hd
    exact List.mem_of_mem_take hd
  apply (combinedRows_ids sim q thr k f vw kw t i).2
  right
  refine List.mem_map.2 ⟨⟨d, 0, tsRank q d.content⟩, ?_, ?_⟩
  · unfold keywordResults
    rw [← List.map_take]
    exact List.mem_map.2 ⟨d, hd2, rfl⟩
  · rw [← hpid, ← hdp]

/-- C3 amended witness: at the counterexample's own inputs, the
lexically-found block id 1 is still in the fused candidate pool. -/
theorem c3_lexical_in_fused_pool_witness :
    1 ∈ (combinedRows (fun d => if d.id == 2 then 9 / 10 else 0) "cat"
        (3 / 10) 1 none (7 / 10) (1 / 100)
        [⟨1, "cat", none⟩, ⟨2, "zzz", none⟩]).map Fused.id := by
  apply c3_lexical_in_fused_pool (fun d => if d.id == 2 then 9 / 10 else 0)
    "cat" (3 / 10) 1 none (7 / 10) (1 / 100) [⟨1, "cat", none⟩, ⟨2, "zzz", none⟩] 1
  have ht1 : tsMatch "cat" "cat" = true := by decide
  have ht2 : tsMatch "cat" "zzz" = false := by decide
  simp [keyword_search_documents, filterOk, ht1, ht2, sortDesc, insertDesc,
    List.filter]

/-- C4 counterexample: two rows with equal similarity and equal combined
score.  The same set of rows presented in two physical orders (a
permutation) yields two different result sequences, and in the first run
the tied ids come out as `[5, 3]` — not ordered by vector score (equal) and
then block identifier, which would give `[3, 5]`.  The query's `ORDER BY`
has no tie-break key, so the claimed deterministic tie-breaking does not
exist. -/
theorem c4_determinism_counterexample :
    ([⟨5, "za", none⟩, ⟨3, "zb", none⟩] : List Doc).Perm
        [⟨3, "zb", none⟩, ⟨5, "za", none⟩] ∧
    (hybrid_search_documents (fun _ => 1 / 2) "cat" (3 / 10) 10 none (7 / 10)
        (3 / 10) [⟨5, "za", none⟩, ⟨3, "zb", none⟩]).map Fused.id = [5, 3] ∧
    (hybrid_search_documents (fun _ => 1 / 2) "cat" (3 / 10) 10 none (7 / 10)
        (3 / 10) [⟨3, "zb", none⟩, ⟨5, "za", none⟩]).map Fused.id = [3, 5] := by
  have ht1 : tsMatch "cat" "za" = false := by decide
  have ht2 : tsMatch "cat" "zb" = false := by decide
  refine ⟨by decide, ?_, ?_⟩ <;>
    · simp only [hybrid_search_documents, combinedRows, vectorResults,
        keywordResults, filterOk, ht1, ht2, List.filter, sortDesc, insertDesc,
        mkFused, joinVector, List.find?, List.all, List.map, List.take]
      norm_num [mkFused, sortDesc, insertDesc, joinVector]

/-- C4 amended: the result sequence is ordered by non-increasing combined
score only; rows with equal combined score keep the order of the fused
candidate list (no secondary sort key reorders them by vector score or
block identifier), so the ordering is a function of the physical row order
of the table, not of the row set. -/
theorem c4_sort_only_by_combined (sim : Doc → ℚ) (q : String) (thr : ℚ)
    (k : Nat) (f : Option String) (vw kw : ℚ) (t : List Doc) :
    (hybrid_search_documents sim q thr k f vw kw t).Pairwise
        (fun a b => b.combined_score ≤ a.combined_score) ∧
      ∀ c : ℚ,
        (sortDesc Fused.combined_score
            (combinedRows sim q thr k f vw kw t)).filter
            (fun r => decide (r.combined_score = c)) =
          (combinedRows sim q thr k f vw kw t).filter
            (fun r => decide (r.combined_score = c)) := by
  constructor
  · unfold hybrid_search_documents
    exact (sortDesc_pairwise Fused.combined_score _).sublist (List.take_sublist _ _)
  · intro c
    exact filter_sortDesc Fused.combined_score _ c

/-! ## Lemmas about the `/receive_data` handler -/

/-- Case analysis on the handler: either both `url` and `text` are falsy and
it returns 400 with the state untouched, or one is truthy and it returns a
server error (state untouched), a saved result (state appended), or an
unsaved result (no database). -/
theorem receive_data_cases (scrape : String → Except String ScrapeResult)
    (analyze : String → Except String Analysis) (now : String) (hasDb : Bool)
    (st : Store) (body : ReqBody) :
    ((jsTruthy body.url = false ∧ jsTruthy body.text = false) ∧
      receive_data scrape analyze now hasDb st body =
        (st, .badRequest "Either URL or text content is required")) ∨
    ((jsTruthy body.url = true ∨ jsTruthy body.text = true) ∧
      ((∃ e, receive_data scrape analyze now hasDb st body =
          (st, .serverError e)) ∨
       (∃ m, receive_data scrape analyze now hasDb st body =
          (addDoc st m, .okSaved st.length m) ∧ hasDb = true) ∨
       (∃ m, receive_data scrape analyze now hasDb st body =
          (st, .okUnsaved m) ∧ hasDb = false))) := by
  unfold receive_data
  split
  · rename_i hcond
    simp only [Bool.and_eq_true, Bool.not_eq_true'] at hcond
    exact Or.inl ⟨hcond, rfl⟩
  · rename_i hcond
    simp only [Bool.and_eq_true, Bool.not_eq_true', not_and_or,
      Bool.not_eq_false] at hcond
    refine Or.inr ⟨hcond, ?_⟩
    split
    · exact Or.inl ⟨_, rfl⟩
    · split
      · exact Or.inl ⟨_, rfl⟩
      · split
        · rename_i hdb
          exact Or.inr (Or.inl ⟨_, rfl, hdb⟩)
        · rename_i hdb
          exact Or.inr (Or.inr ⟨_, rfl, by simpa using hdb⟩)

/-- Appending an entry for an address raises that address's count by one. -/
theorem countFor_addDoc (addr : String) (st : Store) (m : Memory)
    (h : m.url = some addr) :
    countFor addr (addDoc st m) = countFor addr st + 1 := by
  unfold countFor addDoc
  rw [List.filter_append, List.length_append]
  simp [h]

/-- C8 counterexample: submitting the identical source twice (same url, no
text) leaves one entry after the first submission and two after the second
— `collection.add` appends a fresh document instead of overwriting, so the
stored-entry count for the address does not stay unchanged. -/
theorem c8_idempotence_counterexample :
    countFor "https://e.com/a"
      ((receive_data (fun _ => .ok ⟨"stuff", "m"⟩)
        (fun _ => .ok ⟨some "T", "p"⟩) "t0" true []
        ⟨some "https://e.com/a", none, none⟩).1) = 1 ∧
    countFor "https://e.com/a"
      ((receive_data (fun _ => .ok ⟨"stuff", "m"⟩)
        (fun _ => .ok ⟨some "T", "p"⟩) "t0" true
        ((receive_data (fun _ => .ok ⟨"stuff", "m"⟩)
          (fun _ => .ok ⟨some "T", "p"⟩) "t0" true []
          ⟨some "https://e.com/a", none, none⟩).1)
        ⟨some "https://e.com/a", none, none⟩).1) = 2 ∧
    (2 : Nat) ≠ 1 := by
  refine ⟨by decide, by decide, by decide⟩

/-- C8 amended: a successful saved submission appends one fresh entry via
`collection.add`; re-submitting the same source grows the stored-entry
count for its address by one instead of leaving it unchanged. -/
theorem c8_resubmission_appends (scrape : String → Except String ScrapeResult)
    (analyze : String → Except String Analysis) (now : String) (st : Store)
    (body : ReqBody) (i : Nat) (m : Memory)
    (h : (receive_data scrape analyze now true st body).2 =
      Response.okSaved i m) :
    (receive_data scrape analyze now true st body).1 = addDoc st m ∧
      ∀ addr : String, m.url = some addr →
        countFor addr (addDoc st m) = countFor addr st + 1 := by
  rcases receive_data_cases scrape analyze now true st body with
    ⟨_, heq⟩ | ⟨_, ⟨e, heq⟩ | ⟨m2, heq, _⟩ | ⟨m2, heq, hdb⟩⟩
  · rw [heq] at h
    exact absurd h (by simp)
  · rw [heq] at h
    exact absurd h (by simp)
  · rw [heq] at h
    simp only [Response.okSaved.injEq] at h
    obtain ⟨hi, hm⟩ := h
    rw [heq, hm]
    exact ⟨rfl, fun addr ha => countFor_addDoc addr st m ha⟩
  · exact absurd hdb (by simp)

/-- C8 amended witness: the counterexample's first submission saves exactly
the built memory by appending it to the empty store. -/
theorem c8_resubmission_appends_witness :
    (receive_data (fun _ => .ok ⟨"stuff", "m"⟩)
        (fun _ => .ok ⟨some "T", "p"⟩) "t0" true []
        ⟨some "https://e.com/a", none, none⟩).1 =
      addDoc []
        (memoryOf ⟨some "T", "p"⟩ ⟨some "https://e.com/a", none, none⟩ "t0") :=
  (c8_resubmission_appends (fun _ => .ok ⟨"stuff", "m"⟩)
    (fun _ => .ok ⟨some "T", "p"⟩) "t0" []
    ⟨some "https://e.com/a", none, none⟩ 0
    (memoryOf ⟨some "T", "p"⟩ ⟨some "https://e.com/a", none, none⟩ "t0")
    (by decide)).1

/-- C9: the handler returns the 400 validation error exactly when both
`url` and `text` are (JavaScript-)falsy; in that case the stored state is
unchanged and the outcome does not depend on the scraping or analysis
services at all; otherwise the response is never the 400 error. -/
theorem c9_validation (scrape : String → Except String ScrapeResult)
    (analyze : String → Except String Analysis) (now : String) (hasDb : Bool)
    (st : Store) (body : ReqBody) :
    ((receive_data scrape analyze now hasDb st body).2.isBadRequest = true ↔
      jsTruthy body.url = false ∧ jsTruthy body.text = false) ∧
    (jsTruthy body.url = false → jsTruthy body.text = false →
      (receive_data scrape analyze now hasDb st body).1 = st ∧
      ∀ (scrape2 : String → Except String ScrapeResult)
        (analyze2 : String → Except String Analysis),
        receive_data scrape analyze now hasDb st body =
          receive_data scrape2 analyze2 now hasDb st body) := by
  rcases receive_data_cases scrape analyze now hasDb st body with
    ⟨⟨hu, ht⟩, heq⟩ | ⟨hor, hcase⟩
  · constructor
    · rw [heq]
      simp [Response.isBadRequest, hu, ht]
    · intro _ _
      refine ⟨by rw [heq], fun scrape2 analyze2 => ?_⟩
      rcases receive_data_cases scrape2 analyze2 now hasDb st body with
        ⟨_, heq2⟩ | ⟨hor2, _⟩
      · rw [heq, heq2]
      · exfalso
        rcases hor2 with h | h
        · rw [hu] at h
          cases h
        · rw [ht] at h
          cases h
  · constructor
    · constructor
      · intro hbad
        rcases hcase with ⟨e, heq⟩ | ⟨m, heq, _⟩ | ⟨m, heq, _⟩ <;>
          rw [heq] at hbad <;> simp [Response.isBadRequest] at hbad
      · rintro ⟨hu, ht⟩
        rcases hor with h | h
        · rw [hu] at h
          cases h
        · rw [ht] at h
          cases h
    · rintro hu ht
      rcases hor with h | h
      · rw [hu] at h
        cases h
      · rw [ht] at h
        cases h

/-- C9 witness: a body with neither url nor text leaves the store
unchanged. -/
theorem c9_validation_witness :
    (receive_data (fun _ => .error "x") (fun _ => .error "y") "t0" true []
        ⟨none, none, none⟩).1 = ([] : Store) :=
  ((c9_validation (fun _ => .error "x") (fun _ => .error "y") "t0" true []
      ⟨none, none, none⟩).2 rfl rfl).1

/-- C10: `deriveTypeFromUrl` is total over the fixed ten-value set; a falsy
url yields `text`; the platform substrings are checked in source order
before the `.pdf` suffix (a github url ending in `.pdf` is `github`); with
no platform match a `.pdf` suffix yields `pdf` and any other non-empty url
yields `article`. -/
theorem c10_deriveTypeFromUrl (url : Option String) (s : String) :
    deriveTypeFromUrl url ∈ ["text", "youtube", "linkedin", "twitter",
        "reddit", "quora", "instagram", "github", "pdf", "article"] ∧
    deriveTypeFromUrl none = "text" ∧
    deriveTypeFromUrl (some "") = "text" ∧
    (s ≠ "" →
      ((jsIncludes (jsToLower s) "youtube.com" = true ∨
          jsIncludes (jsToLower s) "youtu.be" = true) →
        deriveTypeFromUrl (some s) = "youtube") ∧
      (jsIncludes (jsToLower s) "github.com" = true →
        jsIncludes (jsToLower s) "youtube.com" = false →
        jsIncludes (jsToLower s) "youtu.be" = false →
        jsIncludes (jsToLower s) "linkedin.com" = false →
        jsIncludes (jsToLower s) "x.com" = false →
        jsIncludes (jsToLower s) "twitter.com" = false →
        jsIncludes (jsToLower s) "reddit.com" = false →
        jsIncludes (jsToLower s) "quora.com" = false →
        jsIncludes (jsToLower s) "instagram.com" = false →
        deriveTypeFromUrl (some s) = "github") ∧
      ((∀ p ∈ platformSubstrings, jsIncludes (jsToLower s) p = false) →
        jsEndsWith (jsToLower s) ".pdf" = true →
        deriveTypeFromUrl (some s) = "pdf") ∧
      ((∀ p ∈ platformSubstrings, jsIncludes (jsToLower s) p = false) →
        jsEndsWith (jsToLower s) ".pdf" = false →
        deriveTypeFromUrl (some s) = "article")) := by
  have htext : ∀ u : Option String, jsTruthy u = false →
      deriveTypeFromUrl u = "text" := by
    intro u hu
    unfold deriveTypeFromUrl
    rw [if_pos (by simp [hu])]
  refine ⟨?_, htext none rfl, htext (some "") rfl, fun hs => ?_⟩
  · cases url with
    | none => simp [htext none rfl]
    | some u =>
      by_cases hu : jsTruthy (some u) = true
      · unfold deriveTypeFromUrl
        rw [if_neg (by simp [hu])]
        dsimp only
        repeat' split
        all_goals simp
      · simp [htext (some u) (by simpa using hu)]
  · have htr : jsTruthy (some s) = true := by
      simp only [jsTruthy, Bool.not_eq_true']
      exact beq_eq_false_iff_ne.2 hs
    refine ⟨fun h1 => ?_, fun hg h1 h2 h3 h4 h5 h6 h7 h8 => ?_,
      fun hall hpdf => ?_, fun hall hpdf => ?_⟩
    · unfold deriveTypeFromUrl
      simp only [htr, Bool.not_true, Bool.false_eq_true, if_false]
      dsimp only [jsInterp]
      rcases h1 with h | h <;> simp [h]
    · unfold deriveTypeFromUrl
      simp only [htr, Bool.not_true, Bool.false_eq_true, if_false]
      dsimp only [jsInterp]
      simp [hg, h1, h2, h3, h4, h5, h6, h7, h8]
    · have h1 := hall "youtube.com" (by simp [platformSubstrings])
      have h2 := hall "youtu.be" (by simp [platformSubstrings])
      have h3 := hall "linkedin.com" (by simp [platformSubstrings])
      have h4 := hall "x.com" (by simp [platformSubstrings])
      have h5 := hall "twitter.com" (by simp [platformSubstrings])
      have h6 := hall "reddit.com" (by simp [platformSubstrings])
      have h7 := hall "quora.com" (by simp [platformSubstrings])
      have h8 := hall "instagram.com" (by simp [platformSubstrings])
      have h9 := hall "github.com" (by simp [platformSubstrings])
      unfold deriveTypeFromUrl
      simp only [htr, Bool.not_true, Bool.false_eq_true, if_false]
      dsimp only [jsInterp]
      simp [h1, h2, h3, h4, h5, h6, h7, h8, h9, hpdf]
    · have h1 := hall "youtube.com" (by simp [platformSubstrings])
      have h2 := hall "youtu.be" (by simp [platformSubstrings])
      have h3 := hall "linkedin.com" (by simp [platformSubstrings])
      have h4 := hall "x.com" (by simp [platformSubstrings])
      have h5 := hall "twitter.com" (by simp [platformSubstrings])
      have h6 := hall "reddit.com" (by simp [platformSubstrings])
      have h7 := hall "quora.com" (by simp [platformSubstrings])
      have h8 := hall "instagram.com" (by simp [platformSubstrings])
      have h9 := hall "github.com" (by simp [platformSubstrings])
      unfold deriveTypeFromUrl
      simp only [htr, Bool.not_true, Bool.false_eq_true, if_false]
      dsimp only [jsInterp]
      simp [h1, h2, h3, h4, h5, h6, h7, h8, h9, hpdf]

/-- C10 witness: a github url ending in `.pdf` derives `github`, showing
the substring checks precede the suffix check. -/
theorem c10_deriveTypeFromUrl_witness :
    deriveTypeFromUrl (some "https://github.com/a/b.pdf") = "github" :=
  ((c10_deriveTypeFromUrl (some "https://github.com/a/b.pdf")
      "https://github.com/a/b.pdf").2.2.2 (by decide)).2.1 (by decide)
    (by decide) (by decide) (by decide) (by decide) (by decide) (by decide)
    (by decide) (by decide)

end Snapmind
